import Mathlib

/-!
Verification of the mkdocs development-preview-server specification against
the repository's code.

The file has two parts.

Part I embeds `mkdocs/structure/files.py` (present in the sources):
the `posixpath` primitives it calls, `File._get_stem`, `File._get_dest_path`,
`File._get_url` and the `File.__init__` argument validation.

Part II models the livereload subsystem.  The module `mkdocs/livereload`
itself is not among the provided sources (only its test suite is), so the
scheduler, epoch broadcaster, long-poll handler, HTML script injection and
error handling are modelled from the specification text, and the claims are
settled against those models.
-/

set_option autoImplicit false

namespace MkDocs

/-! ### Part I: posixpath primitives used by `mkdocs/structure/files.py` -/

/-- Raw phase of Python `posixpath.split`: head is everything up to and
including the last slash, tail is the remainder. -/
def posixSplitRaw : List Char → List Char × List Char
  | [] => ([], [])
  | c :: rest =>
    if rest.contains '/' then
      let p := posixSplitRaw rest
      (c :: p.1, p.2)
    else if c = '/' then ([c], rest)
    else ([], c :: rest)

/-- Python `"".rstrip("/")` on a char list. -/
def rstripSlashes (l : List Char) : List Char :=
  (l.reverse.dropWhile (fun c => c = '/')).reverse

/-- Python `posixpath.split(p)`: split at the last slash; trailing slashes are
stripped from the head unless the head consists only of slashes. -/
def posixSplit (p : String) : String × String :=
  let r := posixSplitRaw p.data
  let head := if r.1 ≠ [] ∧ ¬ r.1.all (fun c => c = '/') then rstripSlashes r.1 else r.1
  (String.mk head, String.mk r.2)

/-- Python `posixpath.join(a, b)` for one extra component. -/
def posixJoin (a b : String) : String :=
  if ['/'].isPrefixOf b.data then b
  else if a = "" ∨ ['/'].isSuffixOf a.data then a ++ b
  else a ++ "/" ++ b

/-- Does `needle` occur in `hay` starting at position `i`? -/
def matchesAt (hay needle : List Char) (i : Nat) : Bool :=
  needle.isPrefixOf (hay.drop i)

/-- Position of the last occurrence of `needle` in `hay` at a position `≤ i`. -/
def lastMatchBelow (hay needle : List Char) : Nat → Option Nat
  | 0 => if matchesAt hay needle 0 then some 0 else none
  | i + 1 => if matchesAt hay needle (i + 1) then some (i + 1) else lastMatchBelow hay needle i

/-- Python `posixpath.splitext` on a basename (no slashes), which is how
`File._get_stem` uses it: split at the last dot, unless every character
before that dot is itself a dot (leading-dot files get no extension). -/
def splitextBase (l : List Char) : List Char × List Char :=
  match lastMatchBelow l ['.'] l.length with
  | none => (l, [])
  | some d => if (l.take d).any (fun c => c ≠ '.') then (l.take d, l.drop d) else (l, [])

/-- Modelled from the spec: `mkdocs.utils.is_markdown_file` is not among the
provided sources; a documentation page is a file whose source path ends with
one of the Markdown extensions. -/
def markdownSuffixes : List String := [".markdown", ".mdown", ".mkdn", ".mkd", ".md"]

/-- Translation of `File.is_documentation_page`, i.e. `utils.is_markdown_file(src_uri)`. -/
def isMarkdownFile (path : String) : Bool :=
  markdownSuffixes.any (fun e => e.data.isSuffixOf path.data)

/-- Translation of `File._get_stem`: basename without extension, `README` mapped to `index`. -/
def getStem (src_uri : String) : String :=
  let base := (posixSplit src_uri).2
  let stem := String.mk (splitextBase base.data).1
  if stem = "README" then "index" else stem

/-- Translation of `File._get_dest_path` from `mkdocs/structure/files.py`, with
`use_directory_urls` passed explicitly (the default is the file's own flag). -/
def getDestPath (src_uri : String) (use_directory_urls : Bool) : String :=
  if isMarkdownFile src_uri then
    let parent := (posixSplit src_uri).1
    let nm := getStem src_uri
    if ¬ use_directory_urls ∨ nm = "index" then
      posixJoin parent (nm ++ ".html")
    else
      posixJoin (posixJoin parent nm) "index.html"
  else src_uri

/-- UTF-8 bytes of one character, as numbers below 256. -/
def utf8BytesOf (c : Char) : List Nat :=
  let n := c.toNat
  if n < 128 then [n]
  else if n < 2048 then [192 + n / 64, 128 + n % 64]
  else if n < 65536 then [224 + n / 4096, 128 + n / 64 % 64, 128 + n % 64]
  else [240 + n / 262144, 128 + n / 4096 % 64, 128 + n / 64 % 64, 128 + n % 64]

/-- Uppercase hexadecimal digit. -/
def hexDigitChar (n : Nat) : Char :=
  if n < 10 then Char.ofNat (48 + n) else Char.ofNat (55 + n)

/-- One character under Python `urllib.parse.quote` with `safe='/'`:
ASCII alphanumerics and `_.-~/` stay, anything else is `%`-encoded bytewise. -/
def urlquoteChar (c : Char) : List Char :=
  if c.isAlphanum ∨ c ∈ ['_', '.', '-', '~', '/'] then [c]
  else (utf8BytesOf c).foldr
    (fun b acc => '%' :: hexDigitChar (b / 16) :: hexDigitChar (b % 16) :: acc) []

/-- Python `urllib.parse.quote` with the default `safe='/'`. -/
def urlquote (s : String) : String :=
  String.mk (s.data.foldr (fun c acc => urlquoteChar c ++ acc) [])

/-- Translation of `File._get_url` from `mkdocs/structure/files.py`, applied to a computed
`dest_uri`, with `use_directory_urls` passed explicitly. -/
def getUrl (dest_uri : String) (use_directory_urls : Bool) : String :=
  let p := posixSplit dest_uri
  let url :=
    if use_directory_urls ∧ p.2 = "index.html" then
      (if p.1 = "" then "." else p.1) ++ "/"
    else dest_uri
  urlquote url

/-- Split a char list on `/` (keeping empty components). -/
def splitOnSlash : List Char → List (List Char)
  | [] => [[]]
  | c :: rest =>
    let r := splitOnSlash rest
    if c = '/' then [] :: r
    else
      match r with
      | [] => [[c]]
      | h :: t => (c :: h) :: t

/-- Python `PurePath(p).as_posix()` on a POSIX system: duplicate slashes,
`.` components and trailing slashes are dropped, `..` is kept, a leading
double (but not triple) slash is preserved, and the empty result is `.`. -/
def purePosixAsPosix (p : String) : String :=
  let comps := (splitOnSlash p.data).filter (fun c => c ≠ [] ∧ c ≠ ['.'])
  let root : String :=
    if ['/', '/'].isPrefixOf p.data ∧ ¬ ['/', '/', '/'].isPrefixOf p.data then "//"
    else if ['/'].isPrefixOf p.data then "/"
    else ""
  let s := root ++ String.intercalate "/" (comps.map (fun c => String.mk c))
  if s = "" then "." else s

/-- The attributes of a `File` object that its constructor assigns. -/
structure FileRec where
  src_uri : String
  src_dir : Option String
  dest_dir : String
  use_directory_urls : Bool
  content : Option String
deriving Repr, DecidableEq

/-- Translation of `File.__init__` from `mkdocs/structure/files.py`: raises `TypeError`
unless exactly one of `src_dir` and `content` is given; on success stores the
`/`-normalized `path` (via the `src_path` setter, `PurePath(path).as_posix()`)
as `src_uri`. -/
def fileInit (path : String) (src_dir : Option String) (dest_dir : String)
    (use_directory_urls : Bool) (content : Option String) : Except String FileRec :=
  if src_dir.isNone = content.isNone then
    .error "File must have one of src_dir or content"
  else
    .ok { src_uri := purePosixAsPosix path, src_dir := src_dir, dest_dir := dest_dir,
          use_directory_urls := use_directory_urls, content := content }

/-- The url computation exactly as claim C9 words it: when
`use_directory_urls` is true, a trailing `index.html` of `dest_uri` is
replaced by a trailing `/`.  (Stated from the claim, for comparison with
`getUrl`, which is translated from the code.) -/
def urlClaimLiteral (dest_uri : String) (use_directory_urls : Bool) : String :=
  if use_directory_urls ∧ "index.html".data.isSuffixOf dest_uri.data then
    String.mk (dest_uri.data.take (dest_uri.data.length - 10)) ++ "/"
  else dest_uri

/-- Claim C9 counterexample: for the root index page (`index.md` with
`use_directory_urls = true`) the code's url is `./`, not the result `/` of
literally replacing the trailing `index.html` by a trailing `/`. -/
theorem C9_counterexample :
    getDestPath "index.md" true = "index.html"
    ∧ urlClaimLiteral (getDestPath "index.md" true) true = "/"
    ∧ getUrl (getDestPath "index.md" true) true = "./"
    ∧ getUrl (getDestPath "index.md" true) true
        ≠ urlClaimLiteral (getDestPath "index.md" true) true := by
  refine ⟨by decide, by decide, by decide, by decide⟩

/-- Claim C9 as amended: for a Markdown page, `dest_uri` is
`parent/stem.html` when `use_directory_urls` is false or the stem (with
`README` mapped to `index`) is `index`, and `parent/stem/index.html`
otherwise; for a non-Markdown file, `dest_uri` is `src_uri` unchanged; and
when `use_directory_urls` is true and the final path component of `dest_uri`
is `index.html`, the url is the percent-quoted parent directory (`.` at the
root) followed by `/`. -/
theorem C9_dest_uri_and_url (src_uri : String) (udu : Bool) :
    (isMarkdownFile src_uri = true →
      ((udu = false ∨ getStem src_uri = "index") →
        getDestPath src_uri udu = posixJoin (posixSplit src_uri).1 (getStem src_uri ++ ".html"))
      ∧ (udu = true → getStem src_uri ≠ "index" →
        getDestPath src_uri udu
          = posixJoin (posixJoin (posixSplit src_uri).1 (getStem src_uri)) "index.html"))
    ∧ (isMarkdownFile src_uri = false → getDestPath src_uri udu = src_uri)
    ∧ (udu = true → (posixSplit (getDestPath src_uri udu)).2 = "index.html" →
        getUrl (getDestPath src_uri udu) udu
          = urlquote ((if (posixSplit (getDestPath src_uri udu)).1 = ""
              then "." else (posixSplit (getDestPath src_uri udu)).1) ++ "/")) := by
  refine ⟨fun hmd => ⟨fun hcase => ?_, fun hudu hstem => ?_⟩, fun hmd => ?_, fun hudu hidx => ?_⟩
  · rw [getDestPath, if_pos hmd, if_pos]
    rcases hcase with h | h
    · subst h; left; decide
    · right; exact h
  · rw [getDestPath, if_pos hmd, if_neg]
    subst hudu
    simp [hstem]
  · rw [getDestPath, if_neg]
    simp [hmd]
  · subst hudu
    rw [getUrl]
    simp only [hidx, true_and, if_pos]

/-- Witness for `C9_dest_uri_and_url` at concrete inputs. -/
theorem C9_dest_uri_and_url_witness :
    getDestPath "docs/page.md" true = "docs/page/index.html"
    ∧ getDestPath "docs/README.md" true = "docs/index.html"
    ∧ getDestPath "style.css" true = "style.css"
    ∧ getUrl (getDestPath "docs/page.md" true) true = "docs/page/" := by
  refine ⟨?_, ?_, ?_, ?_⟩
  · exact (((C9_dest_uri_and_url "docs/page.md" true).1 (by decide)).2 rfl
      (by decide)).trans (by decide)
  · exact (((C9_dest_uri_and_url "docs/README.md" true).1 (by decide)).1
      (Or.inr (by decide))).trans (by decide)
  · exact (C9_dest_uri_and_url "style.css" true).2.1 (by decide)
  · exact ((C9_dest_uri_and_url "docs/page.md" true).2.2 rfl (by decide)).trans (by decide)

/-- Claim C10: constructing a `File` raises `TypeError` exactly when not
exactly one of `src_dir` and `content` is provided; when exactly one is
given, construction succeeds and `src_uri` is the `/`-normalized given
path. -/
theorem C10_file_init (path : String) (sd : Option String) (dd : String)
    (udu : Bool) (ct : Option String) :
    (sd.isNone = ct.isNone ↔
      fileInit path sd dd udu ct = .error "File must have one of src_dir or content")
    ∧ (sd.isNone ≠ ct.isNone →
      ∃ f, fileInit path sd dd udu ct = .ok f ∧ f.src_uri = purePosixAsPosix path) := by
  constructor
  · constructor
    · intro h
      rw [fileInit, if_pos h]
    · intro h
      by_contra hne
      rw [fileInit, if_neg hne] at h
      exact Except.noConfusion h
  · intro h
    refine ⟨⟨purePosixAsPosix path, sd, dd, udu, ct⟩, ?_, rfl⟩
    rw [fileInit, if_neg h]

/-- Witness for `C10_file_init` at concrete inputs. -/
theorem C10_file_init_witness :
    (some "d" : Option String).isNone ≠ (none : Option String).isNone
    ∧ ∃ f, fileInit "./foo//bar" (some "d") "site" true none = .ok f
        ∧ f.src_uri = purePosixAsPosix "./foo//bar" := by
  exact ⟨by decide, (C10_file_init "./foo//bar" (some "d") "site" true none).2 (by decide)⟩

/-! ### Part II: the livereload subsystem, modelled from the spec

`mkdocs/livereload/__init__.py` is not among the provided sources (only its
test suite is), so the definitions below are modelled from the specification
text and the claims are settled against them. -/

/-- Modelled from the spec: the epoch is "initialized to a fixed nonzero
starting value at server construction". -/
def initialEpoch : Nat := 1

/-- Insert a watched root into the pending change set (a deduplicating
list standing for a set). -/
def insertRoot (r : Nat) (l : List Nat) : List Nat :=
  if r ∈ l then l else r :: l

/-- Set root `r`'s content to `v` in an association list. -/
def setAssoc (r v : Nat) : List (Nat × Nat) → List (Nat × Nat)
  | [] => [(r, v)]
  | (a, b) :: t => if a = r then (r, v) :: t else (a, b) :: setAssoc r v t

/-- Look up root `r`'s content. -/
def lookupAssoc (r : Nat) : List (Nat × Nat) → Option Nat
  | [] => none
  | (a, b) :: t => if a = r then some b else lookupAssoc r t

/-- Modelled from the spec: the state shared by the WatchCoordinator, the
BuildScheduler and the EpochBroadcaster.  `pending` is the PendingChangeSet;
`building` says whether the single build worker is inside the builder
callback; `running` counts builder invocations currently in flight;
`snapshot` holds the source contents the in-flight build reads; `epoch` is
the EpochBroadcaster counter; `src` maps watched roots to their current
contents and `site` maps them to the served contents built from them. -/
structure SchedState where
  pending : List Nat
  building : Bool
  running : Nat
  snapshot : List (Nat × Nat)
  epoch : Nat
  buildsDone : Nat
  src : List (Nat × Nat)
  site : List (Nat × Nat)
deriving Repr, DecidableEq

/-- The state at server construction. -/
def initState : SchedState :=
  { pending := [], building := false, running := 0, snapshot := [],
    epoch := initialEpoch, buildsDone := 0, src := [], site := [] }

/-- A filesystem change: root `c.1` now has content `c.2`; the
WatchCoordinator marks the root dirty. -/
def applyChange (s : SchedState) (c : Nat × Nat) : SchedState :=
  { s with pending := insertRoot c.1 s.pending, src := setAssoc c.1 c.2 s.src }

/-- The scheduler drains the pending set atomically and enters the builder,
which reads the sources as they are at this moment. -/
def startBuild (s : SchedState) : SchedState :=
  { s with
    building := true
    running := s.running + 1
    pending := []
    snapshot := s.src }

/-- The builder returns: the served site now reflects the drained snapshot
and the epoch advances by exactly one. -/
def finishBuild (s : SchedState) : SchedState :=
  { s with
    building := false
    running := s.running - 1
    epoch := s.epoch + 1
    buildsDone := s.buildsDone + 1
    site := s.snapshot }

/-- The step relation of the scheduler: changes may arrive at any time; a
build starts only when the worker is idle and the pending set is nonempty; a
build finishes only when one is in flight. -/
inductive Step : SchedState → SchedState → Prop
  | change (s : SchedState) (c : Nat × Nat) : Step s (applyChange s c)
  | start (s : SchedState) : s.building = false → s.pending ≠ [] → Step s (startBuild s)
  | finish (s : SchedState) : s.building = true → Step s (finishBuild s)

/-- Finitely many steps. -/
inductive StepStar : SchedState → SchedState → Prop
  | refl (s : SchedState) : StepStar s s
  | tail {s t u : SchedState} : StepStar s t → Step t u → StepStar s u

/-- Reachability from the construction state. -/
def Reachable (s : SchedState) : Prop := StepStar initState s

theorem stepStar_one {s t : SchedState} (h : Step s t) : StepStar s t :=
  StepStar.tail (StepStar.refl s) h

theorem stepStar_trans {s t u : SchedState} (h1 : StepStar s t) (h2 : StepStar t u) :
    StepStar s u := by
  induction h2 with
  | refl => exact h1
  | tail _ hstep ih => exact StepStar.tail ih hstep

/-- Strengthened invariant: the worker flag counts the in-flight builds. -/
theorem running_eq_building {s : SchedState} (h : Reachable s) :
    s.running = (if s.building then 1 else 0) := by
  induction h with
  | refl => rfl
  | tail _ hstep ih =>
    cases hstep with
    | change c => simpa [applyChange] using ih
    | start hb hp => simp [startBuild, hb] at ih ⊢; omega
    | finish hb => simp [finishBuild, hb] at ih ⊢; omega

/-- Claim C1: in every reachable state of the scheduler's step relation at
most one invocation of the builder callback is in flight — builds are
serialized, never concurrent, whatever dirty signals arrive. -/
theorem C1_exclusive_build (s : SchedState) (h : Reachable s) : s.running ≤ 1 := by
  have h2 := running_eq_building h
  rcases hb : s.building with _ | _ <;> simp [hb] at h2 <;> omega

/-- Witness for `C1_exclusive_build`: a concrete reachable mid-build state. -/
theorem C1_exclusive_build_witness :
    Reachable (startBuild (applyChange initState (0, 7)))
    ∧ (startBuild (applyChange initState (0, 7))).running ≤ 1 := by
  have hr : Reachable (startBuild (applyChange initState (0, 7))) :=
    StepStar.tail (stepStar_one (Step.change initState (0, 7)))
      (Step.start _ rfl (by decide))
  exact ⟨hr, C1_exclusive_build _ hr⟩

/-- Apply a burst of changes, in order. -/
def applyBurst (s : SchedState) (cs : List (Nat × Nat)) : SchedState :=
  cs.foldl applyChange s

/-- The scheduler can begin a build: idle worker, nonempty pending set. -/
def BuildEnabled (s : SchedState) : Prop := s.building = false ∧ s.pending ≠ []

theorem insertRoot_ne_nil (r : Nat) (l : List Nat) : insertRoot r l ≠ [] := by
  rw [insertRoot]
  split
  · rename_i hm
    intro he
    subst he
    simp at hm
  · simp

theorem applyBurst_building (s : SchedState) (cs : List (Nat × Nat)) :
    (applyBurst s cs).building = s.building := by
  induction cs generalizing s with
  | nil => rfl
  | cons c cs ih => simpa [applyBurst, applyChange] using ih (applyChange s c)

theorem applyBurst_snapshot (s : SchedState) (cs : List (Nat × Nat)) :
    (applyBurst s cs).snapshot = s.snapshot := by
  induction cs generalizing s with
  | nil => rfl
  | cons c cs ih => simpa [applyBurst, applyChange] using ih (applyChange s c)

theorem applyBurst_epoch (s : SchedState) (cs : List (Nat × Nat)) :
    (applyBurst s cs).epoch = s.epoch := by
  induction cs generalizing s with
  | nil => rfl
  | cons c cs ih => simpa [applyBurst, applyChange] using ih (applyChange s c)

theorem applyBurst_buildsDone (s : SchedState) (cs : List (Nat × Nat)) :
    (applyBurst s cs).buildsDone = s.buildsDone := by
  induction cs generalizing s with
  | nil => rfl
  | cons c cs ih => simpa [applyBurst, applyChange] using ih (applyChange s c)

theorem applyBurst_pending_ne (s : SchedState) (cs : List (Nat × Nat))
    (h : s.pending ≠ []) : (applyBurst s cs).pending ≠ [] := by
  induction cs generalizing s with
  | nil => exact h
  | cons c cs ih =>
    exact ih (applyChange s c) (insertRoot_ne_nil c.1 s.pending)

theorem applyBurst_pending_ne_of_burst (s : SchedState) (cs : List (Nat × Nat))
    (h : cs ≠ []) : (applyBurst s cs).pending ≠ [] := by
  match cs with
  | [] => exact absurd rfl h
  | c :: cs =>
    exact applyBurst_pending_ne (applyChange s c) cs (insertRoot_ne_nil c.1 s.pending)

theorem stepStar_applyBurst (s : SchedState) (cs : List (Nat × Nat)) :
    StepStar s (applyBurst s cs) := by
  induction cs generalizing s with
  | nil => exact StepStar.refl s
  | cons c cs ih =>
    exact stepStar_trans (stepStar_one (Step.change s c)) (ih (applyChange s c))

theorem lookupAssoc_setAssoc (r v : Nat) (m : List (Nat × Nat)) :
    lookupAssoc r (setAssoc r v m) = some v := by
  induction m with
  | nil => simp [setAssoc, lookupAssoc]
  | cons e t ih =>
    rcases e with ⟨a, b⟩
    by_cases ha : a = r
    · simp [setAssoc, lookupAssoc, ha]
    · simp [setAssoc, lookupAssoc, ha, ih]

/-- Claim C3: any nonempty burst of changes arriving within one debounce
window — many changes to a single root or changes to several watched roots —
leads from an idle state to exactly one build: one execution reaches the
post-build state, the build counter and the epoch each advance by exactly 1,
and afterwards no further build is enabled. -/
theorem C3_burst_single_build (s : SchedState) (cs : List (Nat × Nat))
    (hidle : s.building = false) (hcs : cs ≠ []) :
    StepStar s (finishBuild (startBuild (applyBurst s cs)))
    ∧ (finishBuild (startBuild (applyBurst s cs))).buildsDone = s.buildsDone + 1
    ∧ (finishBuild (startBuild (applyBurst s cs))).epoch = s.epoch + 1
    ∧ ¬ BuildEnabled (finishBuild (startBuild (applyBurst s cs))) := by
  refine ⟨?_, ?_, ?_, ?_⟩
  · refine stepStar_trans (stepStar_applyBurst s cs) ?_
    refine stepStar_trans (stepStar_one (Step.start _ ?_ ?_)) (stepStar_one (Step.finish _ ?_))
    · rw [applyBurst_building]; exact hidle
    · exact applyBurst_pending_ne_of_burst s cs hcs
    · rfl
  · simp [finishBuild, startBuild, applyBurst_buildsDone]
  · simp [finishBuild, startBuild, applyBurst_epoch]
  · rintro ⟨-, hpend⟩
    exact hpend rfl

/-- Witness for `C3_burst_single_build`: a two-root burst from the initial
state. -/
theorem C3_burst_single_build_witness :
    initState.building = false
    ∧ ([((0 : Nat), (5 : Nat)), (1, 6)] : List (Nat × Nat)) ≠ []
    ∧ (finishBuild (startBuild (applyBurst initState [(0, 5), (1, 6)]))).buildsDone
        = initState.buildsDone + 1
    ∧ (finishBuild (startBuild (applyBurst initState [(0, 5), (1, 6)]))).epoch
        = initState.epoch + 1 := by
  have h := C3_burst_single_build initState [(0, 5), (1, 6)] rfl (by decide)
  exact ⟨rfl, by decide, h.2.1, h.2.2.1⟩

/-- Claim C2: changes that arrive strictly during a build are not reflected
by it (the served site still shows the snapshot that build started from) and
cause exactly one follow-up build, after which the served content reflects
the last change of the burst and no further build is enabled. -/
theorem C2_follow_up_build (s : SchedState) (cs : List (Nat × Nat)) (r v : Nat)
    (hbuilding : s.building = true) (_hpend : s.pending = []) :
    StepStar s
      (finishBuild (startBuild (finishBuild (applyBurst s (cs ++ [(r, v)])))))
    ∧ (finishBuild (applyBurst s (cs ++ [(r, v)]))).site = s.snapshot
    ∧ (finishBuild (startBuild (finishBuild (applyBurst s (cs ++ [(r, v)]))))).buildsDone
        = s.buildsDone + 2
    ∧ lookupAssoc r
        (finishBuild (startBuild (finishBuild (applyBurst s (cs ++ [(r, v)]))))).site
        = some v
    ∧ ¬ BuildEnabled
        (finishBuild (startBuild (finishBuild (applyBurst s (cs ++ [(r, v)]))))) := by
  refine ⟨?_, ?_, ?_, ?_, ?_⟩
  · refine stepStar_trans (stepStar_applyBurst s (cs ++ [(r, v)])) ?_
    refine stepStar_trans (stepStar_one (Step.finish _ ?_)) ?_
    · rw [applyBurst_building]; exact hbuilding
    · refine stepStar_trans (stepStar_one (Step.start _ ?_ ?_)) (stepStar_one (Step.finish _ ?_))
      · rfl
      · simpa [finishBuild] using
          applyBurst_pending_ne_of_burst s (cs ++ [(r, v)]) (by simp)
      · rfl
  · simp [finishBuild, applyBurst_snapshot]
  · simp [finishBuild, startBuild, applyBurst_buildsDone]
  · have hsrc : (applyBurst s (cs ++ [(r, v)])).src
        = setAssoc r v (applyBurst s cs).src := by
      rw [applyBurst, List.foldl_append]
      rfl
    simp [finishBuild, startBuild, hsrc, lookupAssoc_setAssoc]
  · rintro ⟨-, hp⟩
    exact hp rfl

/-- Witness for `C2_follow_up_build`: one mid-build change. -/
theorem C2_follow_up_build_witness :
    (startBuild (applyChange initState (0, 1))).building = true
    ∧ (startBuild (applyChange initState (0, 1))).pending = []
    ∧ lookupAssoc 0
        (finishBuild (startBuild (finishBuild
          (applyBurst (startBuild (applyChange initState (0, 1))) ([] ++ [(0, 2)]))))).site
        = some 2 := by
  have h := C2_follow_up_build (startBuild (applyChange initState (0, 1))) [] 0 2 rfl rfl
  exact ⟨rfl, rfl, h.2.2.2.1⟩

/-- A long-poll response: either an immediate answer with a body, or a
blocking wait on `wait_until_changed`. -/
inductive PollAction
  | immediate (body : String)
  | block (baseline : Nat)
deriving Repr, DecidableEq

/-- Modelled from the spec: `GET /livereload/{epoch}/{id}` answers at once
with the current epoch as a decimal string when the supplied epoch differs
from the current one, and otherwise blocks. -/
def pollRequest (requestEpoch currentEpoch : Nat) : PollAction :=
  if requestEpoch ≠ currentEpoch then .immediate (toString currentEpoch)
  else .block requestEpoch

/-- Every reachable state keeps the epoch at or above its nonzero start. -/
theorem epoch_ge_initial {s : SchedState} (h : Reachable s) :
    initialEpoch ≤ s.epoch := by
  induction h with
  | refl => exact Nat.le_refl _
  | tail _ hstep ih =>
    cases hstep with
    | change c => simpa [applyChange] using ih
    | start hb hp => simpa [startBuild] using ih
    | finish hb => simp [finishBuild]; omega

/-- Claim C5: a poll whose epoch differs from the current epoch is answered
immediately with the current epoch as a decimal string; since the epoch
starts at a fixed nonzero value and never decreases, a poll supplying the
sentinel epoch 0 is always answered immediately, in every reachable state. -/
theorem C5_poll_immediate (re cur : Nat) (s : SchedState)
    (hne : re ≠ cur) (hs : Reachable s) :
    pollRequest re cur = .immediate (toString cur)
    ∧ pollRequest 0 s.epoch = .immediate (toString s.epoch) := by
  constructor
  · rw [pollRequest, if_pos hne]
  · have h1 := epoch_ge_initial hs
    rw [pollRequest, if_pos]
    rw [initialEpoch] at h1
    omega

/-- Witness for `C5_poll_immediate` at concrete inputs. -/
theorem C5_poll_immediate_witness :
    (0 : Nat) ≠ 2
    ∧ Reachable initState
    ∧ pollRequest 0 2 = .immediate "2"
    ∧ pollRequest 0 initState.epoch = .immediate (toString initState.epoch) := by
  have h := C5_poll_immediate 0 2 initState (by decide) (StepStar.refl initState)
  exact ⟨by decide, StepStar.refl initState, h.1.trans (by decide), h.2⟩

/-- Modelled from the spec: `wait_until_changed(baseline, timeout)` blocks
the caller until the epoch differs from `baseline` or `timeout` elapses and
returns the epoch at that moment.  Time is discrete: `epochAt t` is the
epoch `t` ticks after the request arrived; the result pairs the response
time with the response epoch. -/
def waitUntilChanged (baseline timeout : Nat) (epochAt : Nat → Nat) : Nat × Nat :=
  match (List.range (timeout + 1)).find? (fun t => epochAt t != baseline) with
  | some t => (t, epochAt t)
  | none => (timeout, epochAt timeout)

/-- Modelled from the spec: the long-poll handler over a timeline — answer
at once when the supplied epoch is already stale, else wait. -/
def pollRequestTimed (re timeout : Nat) (epochAt : Nat → Nat) : Nat × Nat :=
  if re ≠ epochAt 0 then (0, epochAt 0)
  else waitUntilChanged re timeout epochAt

/-- Claim C6: a poll whose epoch equals the current one, with no build
completing throughout the window, blocks for the whole
`poll_response_timeout` and then answers with the unchanged epoch. -/
theorem C6_poll_timeout (re timeout : Nat) (epochAt : Nat → Nat)
    (hconst : ∀ t, t ≤ timeout → epochAt t = re) :
    pollRequestTimed re timeout epochAt = (timeout, re) := by
  have h0 : epochAt 0 = re := hconst 0 (Nat.zero_le _)
  rw [pollRequestTimed, if_neg (by simp [h0])]
  have hnone : (List.range (timeout + 1)).find? (fun t => epochAt t != re) = none := by
    rw [List.find?_eq_none]
    intro t ht
    rw [List.mem_range] at ht
    simp [hconst t (Nat.lt_succ_iff.mp ht)]
  rw [waitUntilChanged, hnone]
  rw [hconst timeout (Nat.le_refl _)]

/-- Witness for `C6_poll_timeout`: a constant timeline. -/
theorem C6_poll_timeout_witness :
    (∀ t, t ≤ 3 → (fun _ : Nat => (5 : Nat)) t = 5)
    ∧ pollRequestTimed 5 3 (fun _ : Nat => (5 : Nat)) = (3, 5) := by
  exact ⟨by decide, C6_poll_timeout 5 3 (fun _ => 5) (by decide)⟩

theorem matchesAt_false_of_short (hay needle : List Char) (i : Nat)
    (hlen : hay.length < i + needle.length) (hne : needle ≠ []) :
    matchesAt hay needle i = false := by
  rw [matchesAt]
  by_contra hb
  simp only [Bool.not_eq_false] at hb
  have h1 : needle.length ≤ (hay.drop i).length :=
    (List.isPrefixOf_iff_prefix.mp hb).length_le
  rw [List.length_drop] at h1
  have h2 : 0 < needle.length := List.length_pos.mpr hne
  omega

theorem lastMatchBelow_some (hay needle : List Char) :
    ∀ i k, lastMatchBelow hay needle i = some k →
      matchesAt hay needle k = true ∧ k ≤ i
      ∧ ∀ j, k < j → j ≤ i → matchesAt hay needle j = false := by
  intro i
  induction i with
  | zero =>
    intro k h
    rw [lastMatchBelow] at h
    split at h
    · rename_i hm
      cases h
      exact ⟨hm, Nat.le_refl 0, fun j hj1 hj2 => absurd (Nat.lt_of_lt_of_le hj1 hj2)
        (Nat.lt_irrefl _)⟩
    · exact absurd h (by simp)
  | succ i ih =>
    intro k h
    rw [lastMatchBelow] at h
    split at h
    · rename_i hm
      cases h
      exact ⟨hm, Nat.le_refl _, fun j hj1 hj2 => absurd (Nat.lt_of_lt_of_le hj1 hj2)
        (Nat.lt_irrefl _)⟩
    · rename_i hm
      simp only [Bool.not_eq_true] at hm
      obtain ⟨h1, h2, h3⟩ := ih k h
      refine ⟨h1, Nat.le_succ_of_le h2, fun j hj1 hj2 => ?_⟩
      by_cases hji : j ≤ i
      · exact h3 j hj1 hji
      · have hj : j = i + 1 := by omega
        subst hj
        exact hm

theorem lastMatchBelow_none (hay needle : List Char) :
    ∀ i, lastMatchBelow hay needle i = none →
      ∀ j, j ≤ i → matchesAt hay needle j = false := by
  intro i
  induction i with
  | zero =>
    intro h j hj
    rw [lastMatchBelow] at h
    split at h
    · cases h
    · rename_i hm
      simp only [Bool.not_eq_true] at hm
      have hj0 : j = 0 := Nat.le_zero.mp hj
      subst hj0
      exact hm
  | succ i ih =>
    intro h j hj
    rw [lastMatchBelow] at h
    split at h
    · cases h
    · rename_i hm
      simp only [Bool.not_eq_true] at hm
      by_cases hji : j ≤ i
      · exact ih h j hji
      · have hj1 : j = i + 1 := by omega
        subst hj1
        exact hm

/-- Modelled from the spec: the literal two-part livereload script payload. -/
def scriptPayload (epoch interval : Nat) : String :=
  "<script src=\"/js/livereload.js\"></script><script>livereload("
    ++ toString epoch ++ ", " ++ toString interval ++ ");</script>"

/-- Lower-cased characters, for the case-insensitive search. -/
def lowerChars (doc : List Char) : List Char := doc.map Char.toLower

/-- The closing tag searched for (lower case). -/
def bodyCloseTag : List Char := "</body>".data

/-- Modelled from the spec: insert `payload` immediately before the last
case-insensitive occurrence of `</body>` in `doc`, or append it at the end
of the document when there is none. -/
def injectScript (doc payload : List Char) : List Char :=
  match lastMatchBelow (lowerChars doc) bodyCloseTag doc.length with
  | some i => doc.take i ++ payload ++ doc.drop i
  | none => doc ++ payload

/-- Serving an HTML document: the body after injection and the value put in
the Content-Length header. -/
def serveHtml (doc : String) (epoch interval : Nat) : String × Nat :=
  (String.mk (injectScript doc.data (scriptPayload epoch interval).data),
   (String.mk (injectScript doc.data (scriptPayload epoch interval).data)).utf8ByteSize)

/-- Claim C4: the script pair is inserted immediately before the last
case-insensitive `</body>` of the document, or appended at its end when no
`</body>` occurs (including the empty document), and Content-Length equals
the byte length of the document after injection. -/
theorem C4_html_injection (doc : String) (epoch interval : Nat) :
    (serveHtml doc epoch interval).2 = (serveHtml doc epoch interval).1.utf8ByteSize
    ∧ (∀ i, lastMatchBelow (lowerChars doc.data) bodyCloseTag doc.data.length = some i →
        (serveHtml doc epoch interval).1.data
          = doc.data.take i ++ (scriptPayload epoch interval).data ++ doc.data.drop i
        ∧ matchesAt (lowerChars doc.data) bodyCloseTag i = true
        ∧ ∀ j, i < j → matchesAt (lowerChars doc.data) bodyCloseTag j = false)
    ∧ (lastMatchBelow (lowerChars doc.data) bodyCloseTag doc.data.length = none →
        (serveHtml doc epoch interval).1.data
          = doc.data ++ (scriptPayload epoch interval).data
        ∧ ∀ j, matchesAt (lowerChars doc.data) bodyCloseTag j = false) := by
  have hmapLen : (lowerChars doc.data).length = doc.data.length := List.length_map _ _
  have h7 : bodyCloseTag.length = 7 := rfl
  refine ⟨rfl, ?_, ?_⟩
  · intro i hi
    obtain ⟨h1, h2, h3⟩ :=
      lastMatchBelow_some (lowerChars doc.data) bodyCloseTag doc.data.length i hi
    refine ⟨?_, h1, ?_⟩
    · unfold serveHtml injectScript
      rw [hi]
    · intro j hj
      by_cases hji : j ≤ doc.data.length
      · exact h3 j hj hji
      · refine matchesAt_false_of_short _ _ _ ?_ (by decide)
        rw [hmapLen, h7]
        omega
  · intro hn
    refine ⟨?_, ?_⟩
    · unfold serveHtml injectScript
      rw [hn]
    · intro j
      by_cases hji : j ≤ doc.data.length
      · exact lastMatchBelow_none _ _ _ hn j hji
      · refine matchesAt_false_of_short _ _ _ ?_ (by decide)
        rw [hmapLen, h7]
        omega

/-- Witness for `C4_html_injection`: a document without `</body>` gets the
payload appended; one with two (differently-cased) `</body>` tags gets it
inserted before the last. -/
theorem C4_html_injection_witness :
    lastMatchBelow (lowerChars "<p>hi".data) bodyCloseTag "<p>hi".data.length = none
    ∧ (serveHtml "<p>hi" 1 2).1.data = "<p>hi".data ++ (scriptPayload 1 2).data
    ∧ lastMatchBelow (lowerChars "</body><BODY>x</BODY>".data) bodyCloseTag
        "</body><BODY>x</BODY>".data.length = some 14
    ∧ (serveHtml "</body><BODY>x</BODY>" 1 2).1.data
        = "</body><BODY>x</BODY>".data.take 14 ++ (scriptPayload 1 2).data
          ++ "</body><BODY>x</BODY>".data.drop 14 := by
  refine ⟨by decide, ((C4_html_injection "<p>hi" 1 2).2.2 (by decide)).1, by decide,
    ((C4_html_injection "</body><BODY>x</BODY>" 1 2).2.1 14 (by decide)).1⟩

/-- An HTTP response: status code and body. -/
structure HttpResponse where
  status : Nat
  body : String
deriving Repr, DecidableEq

/-- A log record: severity level, the request line it concerns, the status
code reported, and a detail message. -/
structure LogRecord where
  level : String
  request : String
  code : Nat
  detail : String
deriving Repr, DecidableEq

/-- The HTTP request line of a GET for `path`. -/
def requestLine (path : String) : String := "GET " ++ path ++ " HTTP/1.1"

/-- Modelled from the spec: a request for a directory (trailing slash)
resolves to its `index.html`. -/
def resolvePath (path : String) : String :=
  if ['/'].isSuffixOf path.data then path ++ "index.html" else path

/-- Look up a file by path in the served root. -/
def lookupFile (fs : List (String × String)) (p : String) : Option String :=
  match fs with
  | [] => none
  | (a, b) :: t => if a = p then some b else lookupFile t p

/-- Modelled from the spec: the built-in minimal error body, which contains
the status code. -/
def defaultErrorBody (code : Nat) : String := "Error: " ++ toString code

/-- Predicate: `needle` occurs inside `hay`. -/
def StrContains (hay needle : String) : Prop :=
  ∃ pre post, hay = pre ++ needle ++ post

/-- Modelled from the spec: the error branch.  `handlerResult` is `none`
when no custom handler is installed, `some none` when the installed handler
raised, and `some (some b)` when it returned body `b`.  Every error response
is logged with the request line and the status code; a raising handler
additionally logs a diagnostic record. -/
def errorResponse (path : String) (handlerResult : Option (Option String)) :
    HttpResponse × List LogRecord :=
  match handlerResult with
  | none =>
    ({ status := 404, body := defaultErrorBody 404 },
     [{ level := "WARNING", request := requestLine path, code := 404, detail := "" }])
  | some (some b) =>
    ({ status := 404, body := b },
     [{ level := "WARNING", request := requestLine path, code := 404, detail := "" }])
  | some none =>
    ({ status := 404, body := defaultErrorBody 404 },
     [{ level := "WARNING", request := requestLine path, code := 404,
        detail := "Failed to render an error message" },
      { level := "WARNING", request := requestLine path, code := 404, detail := "" }])

/-- Modelled from the spec: GET handling with the error-handler hook.  The
handler argument is `none` when no custom handler is installed; an installed
handler returns `none` when it raises. -/
def handleGet (fs : List (String × String)) (errorHandler : Option (Nat → Option String))
    (path : String) : HttpResponse × List LogRecord :=
  match lookupFile fs (resolvePath path) with
  | some content => ({ status := 200, body := content }, [])
  | none => errorResponse path (errorHandler.map (fun eh => eh 404))

theorem handleGet_miss (fs : List (String × String))
    (errorHandler : Option (Nat → Option String)) (path : String)
    (hmiss : lookupFile fs (resolvePath path) = none) :
    handleGet fs errorHandler path
      = errorResponse path (errorHandler.map (fun eh => eh 404)) := by
  unfold handleGet
  rw [hmiss]

/-- Claim C7: a GET whose resolved path has no file — for instance one
whose file was deleted since it was last served — yields a Not-Found
response whose body contains the status code, and a logged warning carrying
the request line and the status code. -/
theorem C7_not_found (fs : List (String × String)) (path : String)
    (hmiss : lookupFile fs (resolvePath path) = none) :
    (handleGet fs none path).1.status = 404
    ∧ StrContains (handleGet fs none path).1.body (toString 404)
    ∧ ∃ e, e ∈ (handleGet fs none path).2 ∧ e.level = "WARNING"
        ∧ e.request = requestLine path ∧ e.code = 404 := by
  rw [handleGet_miss fs none path hmiss]
  refine ⟨rfl, ⟨"Error: ", "", ?_⟩, ?_⟩
  · show defaultErrorBody 404 = "Error: " ++ toString 404 ++ ""
    decide
  · exact ⟨_, List.mem_singleton.mpr rfl, rfl, rfl, rfl⟩

/-- Witness for `C7_not_found`: an empty served root and a deleted file. -/
theorem C7_not_found_witness :
    lookupFile [] (resolvePath "/missing") = none
    ∧ (handleGet [] none "/missing").1.status = 404
    ∧ ∃ e, e ∈ (handleGet [] none "/missing").2 ∧ e.level = "WARNING"
        ∧ e.request = requestLine "/missing" ∧ e.code = 404 := by
  have h := C7_not_found [] "/missing" rfl
  exact ⟨rfl, h.1, h.2.2⟩

/-- Claim C8: when the installed custom error handler itself raises, the
failure is caught, a diagnostic record describing the handler failure and
the originating request is logged, and the response falls back to the
built-in minimal body, which still contains the numeric status code. -/
theorem C8_bad_error_handler (fs : List (String × String)) (path : String)
    (h : Nat → Option String)
    (hmiss : lookupFile fs (resolvePath path) = none) (hraise : h 404 = none) :
    (handleGet fs (some h) path).1.status = 404
    ∧ (handleGet fs (some h) path).1.body = defaultErrorBody 404
    ∧ StrContains (handleGet fs (some h) path).1.body (toString 404)
    ∧ ∃ e, e ∈ (handleGet fs (some h) path).2
        ∧ e.detail = "Failed to render an error message"
        ∧ e.request = requestLine path ∧ e.code = 404 := by
  rw [handleGet_miss fs (some h) path hmiss]
  have hmap : (some h).map (fun eh => eh 404) = some none := by
    simp [hraise]
  rw [hmap]
  refine ⟨rfl, rfl, ⟨"Error: ", "", ?_⟩, ?_⟩
  · show defaultErrorBody 404 = "Error: " ++ toString 404 ++ ""
    decide
  · exact ⟨_, List.mem_cons_self _ _, rfl, rfl, rfl⟩

/-- Witness for `C8_bad_error_handler`: a handler that always raises. -/
theorem C8_bad_error_handler_witness :
    lookupFile [] (resolvePath "/missing") = none
    ∧ (fun _ : Nat => (none : Option String)) 404 = none
    ∧ (handleGet [] (some (fun _ => none)) "/missing").1.body = defaultErrorBody 404
    ∧ ∃ e, e ∈ (handleGet [] (some (fun _ => none)) "/missing").2
        ∧ e.detail = "Failed to render an error message"
        ∧ e.request = requestLine "/missing" ∧ e.code = 404 := by
  have h := C8_bad_error_handler [] "/missing" (fun _ => none) rfl rfl
  exact ⟨rfl, rfl, h.2.1, h.2.2.2⟩

end MkDocs
